import Mathlib

/-!
Shallow embedding of the qtumjs-eth core (Contract / EventListener /
TxReceiptPromise) and proofs about the properties its specification states.

The embedding translates the TypeScript source:
  * `TxReceiptPromise.confirm` (src/TxReceiptPromise.ts) — the confirmation
    polling loop, modelled as a function over the finite trace of RPC
    observations (receipt lookup result and chain head) seen at each poll.
  * `Contract.onLog` / `EventListener.onLog` (src/Contract.ts,
    src/EventListener.ts) — the log polling loop, modelled as a per-iteration
    step function plus a driver over a trace of environment responses.
  * `Contract.getLogs` / `ContractLogDecoder.decode` (src/Contract.ts,
    src/abi.ts) — batch log decoding.
  * `Contract.rawSend` / `Contract.send` guards, `Contract.call` and
    `decodeOutputs` (src/Contract.ts, src/abi.ts).
  * `MethodMap.findMethod` — the overload-aware method resolver.  Its source
    file is not part of the sources here (only its call sites are), so it is
    modelled from the spec, as marked on the definitions below.
External collaborators (the raw JSON-RPC transport and the ethjs-abi binary
codec) are parameters of the corresponding definitions, exactly as the spec
declares them out of scope.  All definitions come first, followed by the
theorems.
-/

namespace QtumJS

/-! ## Definitions

### TxReceiptPromise.confirm (src/TxReceiptPromise.ts)

The loop body reads, per iteration, `rpc.getTransactionReceipt(txid)` and
`rpc.getBlockNumber()`.  We model one poll iteration's environment input as a
pair `(Option ReceiptM × Int)` — the receipt lookup result and the current
chain head — and the whole `while (true)` loop as recursion over the finite
list of such observations (an empty remainder means the loop is still
polling).  `sleep(pollInterval)` has no observable effect beyond yielding to
the next observation, so it is represented by moving to the next list entry.
-/

/-- A transaction receipt as used by `TxReceiptPromise.confirm`: its `status`
field (already passed through JavaScript `Number(...)`, hence an integer when
present) and the `blockNumber` the transaction was mined at. -/
structure ReceiptM where
  status : Option Int
  blockNumber : Int
deriving DecidableEq

/-- Modelled from the spec: `TRANSACTION_STATUS.FAILED` lives in EthRPC.ts,
which is not part of the sources; the spec describes it as the explicit
failure status carried by a mined receipt, status code 0 in the Ethereum
receipt convention. -/
def TRANSACTION_STATUS_FAILED : Int := 0

/-- `receipt.status != null && Number(receipt.status) === TRANSACTION_STATUS.FAILED`
(src/TxReceiptPromise.ts, line 58). -/
def hasTransactionError (r : ReceiptM) : Bool :=
  match r.status with
  | some s => s == TRANSACTION_STATUS_FAILED
  | none => false

/-- The number of `confirm` events emitted by one `wait for more
confirmations` iteration (src/TxReceiptPromise.ts lines 75-85):
`confirmationCount` starts at 1 and is replaced by
`confirmationCounter - prevConfirmationCounter` when the two differ;
the `for` loop then emits `confirmationCount` times (0 times when that
value is not positive). -/
def confirmEmitCount (counter prev : Int) : Nat :=
  (if counter != prev then counter - prev else 1).toNat

/-- The value stored into `prevConfirmationCounter` by that same iteration.
The source assigns `prevConfirmationCounter = confirmationCount` (line 80) —
i.e. the freshly computed delta, not the counter itself — and leaves the
variable untouched when `confirmationCounter === prevConfirmationCounter`. -/
def confirmNewPrev (counter prev : Int) : Int :=
  if counter != prev then counter - prev else prev

/-- Outcome of running `TxReceiptPromise.confirm`'s polling loop over a finite
trace of observations. -/
inductive ConfirmResult where
  /-- the loop hit `return receipt` -/
  | success (r : ReceiptM)
  /-- the loop hit `throw new Error("Transaction process error")` -/
  | failed
  /-- the observation trace ran out while the loop was still polling -/
  | outOfFuel
deriving DecidableEq

/-- The `while (true)` polling loop of `TxReceiptPromise.confirm`
(src/TxReceiptPromise.ts lines 48-94), run against a trace of per-poll
observations.  Returns the loop outcome together with the list of per-poll
`confirm` event emission counts (one entry per completed non-terminal
iteration, in order). -/
def confirmRun (confirm : Int) : Int → List (Option ReceiptM × Int) →
    ConfirmResult × List Nat
  | _, [] => (.outOfFuel, [])
  | prev, (r?, head) :: rest =>
    match r? with
    | none =>
      -- not yet confirmed or is pending: sleep and continue
      let next := confirmRun confirm prev rest
      (next.1, 0 :: next.2)
    | some r =>
      if hasTransactionError r then (.failed, [])
      else
        let counter := head - r.blockNumber
        if counter == 0 && confirm > 0 then
          -- ignore fresh receipt: sleep and continue
          let next := confirmRun confirm prev rest
          (next.1, 0 :: next.2)
        else if counter < confirm then
          -- wait for more confirmations: emit, update prev, sleep, continue
          let next := confirmRun confirm (confirmNewPrev counter prev) rest
          (next.1, confirmEmitCount counter prev :: next.2)
        else
          -- enough confirmation, success
          (.success r, [])

/-! ### Contract.onLog / EventListener.onLog (src/Contract.ts lines 571-624,
src/EventListener.ts lines 706-768)

Both subscription loops share the same body.  `opts.fromBlock` and
`opts.toBlock` are either a concrete block number or the symbolic string
`"latest"`; the JavaScript default `opts.fromBlock || "latest"` also maps the
falsy number `0` to `"latest"`.  `fetchToLatest` is computed once, from
`fromBlock` only: `typeof fromBlock !== "number"`.  Each `while (!canceled)`
iteration reads the chain head, pins a symbolic `fromBlock` to it, overwrites
`toBlock` with it when `fetchToLatest`, and then either sleeps (empty or
already-consumed window — note the JavaScript comparisons `number > "latest"`
and `number === "latest"` are both false) or fetches the window, delivers
every returned entry to the consumer callback, and advances `fromBlock` to
`head + 1`.  The `canceled` flag is read only at the top of the loop, so an
iteration in progress when `cancel()` is invoked still delivers its batch.
`EventListener.onLog` additionally stashes `logPromise.cancel` — but its
`getLogs` returns a `.then`-derived promise, and the loop's control flow is
otherwise identical. -/

/-- A block tag as used by the onLog loops: a concrete block number or the
symbolic string `"latest"`. -/
inductive BlockSpec where
  | num (n : Int)
  | latest
deriving DecidableEq

/-- `opts.fromBlock || "latest"` (and likewise for `toBlock`): an absent tag
defaults to `"latest"`, and so does the number `0`, which is falsy in
JavaScript. -/
def initBlockSpec (opt : Option BlockSpec) : BlockSpec :=
  match opt with
  | none => .latest
  | some (.num n) => if n = 0 then .latest else .num n
  | some .latest => .latest

/-- The loop's mutable cursor: `fromBlock`, `toBlock`, `isFirstFetch`. -/
structure LoopState where
  fromBlock : BlockSpec
  toBlock : BlockSpec
  isFirstFetch : Bool
deriving DecidableEq

/-- Cursor state at subscription start. -/
def initLoopState (fromOpt toOpt : Option BlockSpec) : LoopState :=
  { fromBlock := initBlockSpec fromOpt
    toBlock := initBlockSpec toOpt
    isFirstFetch := true }

/-- `const fetchToLatest = typeof fromBlock !== "number"` — computed from the
(defaulted) `fromBlock`, not from `toBlock`. -/
def fetchToLatest (fromOpt : Option BlockSpec) : Bool :=
  match initBlockSpec fromOpt with
  | .num _ => false
  | .latest => true

/-- JavaScript `fromBlock > toBlock` at the window check, where `fromBlock`
has just been pinned to a number; a comparison against the string `"latest"`
is a NaN comparison and yields false. -/
def bsGtNum (a : Int) (b : BlockSpec) : Bool :=
  match b with
  | .num m => a > m
  | .latest => false

/-- JavaScript `fromBlock === toBlock` at the window check, `fromBlock`
numeric; a number is never strictly equal to the string `"latest"`. -/
def bsEqNum (a : Int) (b : BlockSpec) : Bool :=
  match b with
  | .num m => a == m
  | .latest => false

/-- What one loop iteration does after reading the chain head: sleep through
an empty/consumed window, or fetch the window `[lo, hi]`, deliver its entries
and advance the cursor. -/
inductive IterAction where
  | sleep (st : LoopState)
  | fetched (lo : Int) (hi : BlockSpec) (st : LoopState)
deriving DecidableEq

/-- One iteration of the onLog polling loop body (src/Contract.ts lines
584-615 and the identical src/EventListener.ts lines 721-756): pin a symbolic
`fromBlock` to the head, overwrite `toBlock` with the head when
`fetchToLatest`, then either sleep (window empty, or equal to a window already
consumed by a non-first fetch) or fetch and advance `fromBlock` to
`head + 1`. -/
def onLogIter (ftl : Bool) (st : LoopState) (head : Int) : IterAction :=
  let fromB : Int :=
    match st.fromBlock with
    | .num n => n
    | .latest => head
  let toB : BlockSpec := if ftl then .num head else st.toBlock
  if bsGtNum fromB toB || (!st.isFirstFetch && bsEqNum fromB toB) then
    .sleep { fromBlock := .num fromB, toBlock := toB, isFirstFetch := st.isFirstFetch }
  else
    .fetched fromB toB
      { fromBlock := .num (head + 1), toBlock := toB, isFirstFetch := false }

/-- The un-cancelled onLog loop run against a trace of environment responses
(per iteration: the chain head, and the entries the fetch would return),
collecting every entry delivered to the consumer callback. -/
def onLogRun {α : Type} (ftl : Bool) : LoopState → List (Int × List α) → List α
  | _, [] => []
  | st, (head, logs) :: rest =>
    match onLogIter ftl st head with
    | .sleep st' => onLogRun ftl st' rest
    | .fetched _ _ st' => logs ++ onLogRun ftl st' rest

/-- The onLog loop run against a trace in which each iteration's entry also
says whether `cancel()` lands during that iteration's awaited operations
(`getBlockNumber`, `sleep` or the log fetch — all before the delivery loop),
collecting only the entries delivered at or after the cancellation signal.
The `canceled` flag is consulted solely at `while (!canceled)`: an iteration
already past that check delivers its fetched batch even when the flag was set
mid-iteration. -/
def onLogRunAfterCancel {α : Type} (ftl : Bool) :
    Bool → LoopState → List (Int × List α × Bool) → List α
  | _, _, [] => []
  | flag, st, (head, logs, c) :: rest =>
    if flag then []
    else
      match onLogIter ftl st head with
      | .sleep st' => onLogRunAfterCancel ftl c st' rest
      | .fetched _ _ st' =>
        (if c then logs else []) ++ onLogRunAfterCancel ftl c st' rest

/-! ### ABI data model, send guards, call, log decoding (src/Contract.ts,
src/abi.ts) -/

/-- One parameter of an ABI method or event definition: its name and declared
Solidity type. -/
structure ABIParam where
  name : String
  type : String
deriving DecidableEq

/-- An ABI method definition as produced by solc: name, inputs, outputs and
the `constant` flag marking a read-only method. -/
structure IABIMethod where
  name : String
  inputs : List ABIParam
  outputs : List ABIParam
  constant : Bool
deriving DecidableEq

/-- A JavaScript argument value as the overload resolver classifies it:
number-like, string-like, or an array of values. -/
inductive Value where
  | num (n : Int)
  | str (s : String)
  | arr (vs : List Value)

/-- The two synchronous failures of `Contract.send` / `Contract.rawSend`:
`Unknown method to send` and `cannot send to a constant method`. -/
inductive SendError where
  | unknownMethod
  | constantMethodSendRejected
deriving DecidableEq

/-- `Contract.rawSend` (src/Contract.ts lines 428-452) up to the RPC
submission: resolve the method (the resolution result is the first argument),
reject an unknown or constant method before anything reaches the RPC client,
otherwise encode the calldata (the external `encodeInputs` codec is a
parameter) and submit it via `rpc.sendTransaction`.  An `ok` result carries
the submitted calldata; an error means no transaction was submitted. -/
def rawSendModel (methodABI : Option IABIMethod)
    (encodeInputs : IABIMethod → List Value → String) (args : List Value) :
    Except SendError String :=
  match methodABI with
  | none => .error .unknownMethod
  | some m =>
    if m.constant then .error .constantMethodSendRejected
    else .ok (encodeInputs m args)

/-- `Contract.send` (src/Contract.ts lines 494-530) up to the RPC submission:
the same guard sequence as `rawSend` (the two method bodies duplicate it),
before the submitted transaction is wrapped with its confirm helper. -/
def sendModel (methodABI : Option IABIMethod)
    (encodeInputs : IABIMethod → List Value → String) (args : List Value) :
    Except SendError String :=
  match methodABI with
  | none => .error .unknownMethod
  | some m =>
    if m.constant then .error .constantMethodSendRejected
    else .ok (encodeInputs m args)

/-- The calldata submitted to the RPC client by a send: none when the guard
threw, exactly the encoded calldata otherwise. -/
def submittedCalldata (r : Except SendError String) : List String :=
  match r with
  | .ok c => [c]
  | .error _ => []

/-- A raw log entry as returned by `rpc.getLogs`: its raw fields. -/
structure ILogItem where
  address : String
  topics : List String
  data : String
deriving DecidableEq

/-- A decoded event, as produced by the external ethjs-abi log decoder. -/
structure IParsedLog where
  eventName : String
deriving DecidableEq

/-- `ContractLogDecoder.decode` (src/abi.ts lines 151-161): run the external
decoder (built from the known ABI set; a parameter here) on the one-element
batch `[rawlog]`; an empty result — no known event definition matched — maps
to null, otherwise the first decoded log is returned. -/
def ContractLogDecoder.decode (d : List ILogItem → List IParsedLog)
    (rawlog : ILogItem) : Option IParsedLog :=
  match d [rawlog] with
  | [] => none
  | l :: _ => some l

/-- A delivered log entry: the raw fields spread unchanged (`...entry`)
plus the best-effort decoded `event` field, null when undecodable. -/
structure IContractEventLog where
  raw : ILogItem
  event : Option IParsedLog
deriving DecidableEq

/-- `Contract.getLogs` (src/Contract.ts lines 549-566) after the RPC fetch
(the fetched raw batch is the second argument): map every raw entry to a
delivered entry carrying its raw fields and its decoded event, null when the
decoder knows no matching event definition.  `EventListener.getLogs`
(src/EventListener.ts lines 686-701) performs the identical mapping. -/
def getLogsModel (d : List ILogItem → List IParsedLog)
    (result : List ILogItem) : List IContractEventLog :=
  result.map (fun entry => ⟨entry, ContractLogDecoder.decode d entry⟩)

/-- `decodeOutputs` (src/abi.ts lines 133-142): collect the output types of
the method and hand them with the raw output data to the external
`decodeParams` codec (a parameter here), which yields the indexed decoded
values that `Array.from` turns into an array. -/
def decodeOutputsModel (decodeParams : List String → String → List Value)
    (method : IABIMethod) (outputData : String) : List Value :=
  decodeParams (method.outputs.map (fun o => o.type)) outputData

/-- `Contract.call` (src/Contract.ts lines 254-268) after the RPC round trip
(the raw RPC output string is the last argument): `decodedOutputs` starts as
the empty array and is replaced by `decodeOutputs(methodABI, output)` only
when the output is not the empty string. -/
def callModel (decodeParams : List String → String → List Value)
    (methodABI : IABIMethod) (rpcOutput : String) : List Value :=
  if rpcOutput = "" then [] else decodeOutputsModel decodeParams methodABI rpcOutput

/-! ### Method resolver (MethodMap.findMethod)

Modelled from the spec: `MethodMap.ts` is not among the sources — only its
call sites (`Contract.encodeParams`, `Contract.send`, `Contract.rawSend`) are
— so the definitions below follow the spec's Method Resolver algorithm: if
the input contains a full signature (parentheses present), look up the exact
signature; otherwise collect all definitions sharing the bare name; a single
candidate must match the argument count; among several candidates, filter by
argument count first, then by best-effort type compatibility (numeric
literal / string / big-integer for integer types, string for string and
bytes types, arrays recursively), and select the sole survivor. -/

/-- Whether the first character list is a prefix of the second. -/
def hasPrefixChars : List Char → List Char → Bool
  | [], _ => true
  | _ :: _, [] => false
  | c :: cs, d :: ds => c == d && hasPrefixChars cs ds

/-- Modelled from the spec: a declared type accepting integer-like values. -/
def isIntType (t : String) : Bool :=
  hasPrefixChars "uint".data t.data || hasPrefixChars "int".data t.data

/-- Modelled from the spec: a declared bytes type. -/
def isBytesType (t : String) : Bool := hasPrefixChars "bytes".data t.data

/-- Modelled from the spec: a declared array type (`T[]`). -/
def isArrayType (t : String) : Bool := hasPrefixChars [']', '['] t.data.reverse

/-- Modelled from the spec: the element type of an array type, the type text
with the trailing `[]` removed. -/
def elemType (t : String) : String := String.mk t.data.dropLast.dropLast

mutual
/-- Modelled from the spec: best-effort compatibility of one supplied value
with one declared Solidity-style type. -/
def typeCompat : String → Value → Bool
  | t, .num _ => isIntType t
  | t, .str _ => isIntType t || t == "string" || isBytesType t
  | t, .arr vs => isArrayType t && typeCompatMany (elemType t) vs
/-- Modelled from the spec: every element of an array value must be
compatible with the array's element type. -/
def typeCompatMany : String → List Value → Bool
  | _, [] => true
  | t, v :: vs => typeCompat t v && typeCompatMany t vs
end

/-- Modelled from the spec: positional compatibility of a supplied argument
list with a definition's declared parameters. -/
def paramsCompat : List ABIParam → List Value → Bool
  | [], [] => true
  | p :: ps, v :: vs => typeCompat p.type v && paramsCompat ps vs
  | _, _ => false

/-- The comma-separated concatenation of type texts, as character data. -/
def typesJoinData : List String → List Char
  | [] => []
  | [t] => t.data
  | t :: ts => t.data ++ ',' :: typesJoinData ts

/-- The full signature string of a definition: `name(type,type,...)`. -/
def signature (m : IABIMethod) : String :=
  String.mk (m.name.data ++ '(' :: (typesJoinData (m.inputs.map (fun p => p.type)) ++ [')']))

/-- Whether the resolver input already contains a full signature, detected by
the presence of a parenthesis. -/
def containsParen (s : String) : Bool := s.data.contains '('

/-- Modelled from the spec: `MethodMap.findMethod` — exact lookup for a
signature-qualified input; for a bare name, the sole same-named definition
must match the argument count, and among several overloads the sole candidate
surviving the argument-count filter followed by the type-compatibility filter
is selected (none on a tie or when none survives). -/
def findMethod (abi : List IABIMethod) (method : String) (args : List Value) :
    Option IABIMethod :=
  if containsParen method then
    abi.find? (fun m => signature m == method)
  else
    match abi.filter (fun m => m.name == method) with
    | [] => none
    | [m] => if m.inputs.length == args.length then some m else none
    | candidates =>
      match (candidates.filter (fun m => m.inputs.length == args.length)).filter
          (fun m => paramsCompat m.inputs args) with
      | [m] => some m
      | _ => none

/-- The `MethodOverloading` overload set used by the repository's tests:
`foo()`. -/
def fooNone : IABIMethod := ⟨"foo", [], [⟨"", "string"⟩], true⟩

/-- `foo(uint256)`. -/
def fooUint : IABIMethod := ⟨"foo", [⟨"a", "uint256"⟩], [⟨"", "string"⟩], true⟩

/-- `foo(string)`. -/
def fooString : IABIMethod := ⟨"foo", [⟨"a", "string"⟩], [⟨"", "string"⟩], true⟩

/-- `foo(uint256,uint256)`. -/
def fooUintUint : IABIMethod :=
  ⟨"foo", [⟨"a", "uint256"⟩, ⟨"b", "uint256"⟩], [⟨"", "string"⟩], true⟩

/-- `foo(int256,int256)`. -/
def fooIntInt : IABIMethod :=
  ⟨"foo", [⟨"a", "int256"⟩, ⟨"b", "int256"⟩], [⟨"", "string"⟩], true⟩

/-- `foo(int256,int256,int256)`. -/
def fooIntIntInt : IABIMethod :=
  ⟨"foo", [⟨"a", "int256"⟩, ⟨"b", "int256"⟩, ⟨"c", "int256"⟩], [⟨"", "string"⟩], true⟩

/-- The six `foo` overloads together, as one contract ABI. -/
def methodOverloadingAbi : List IABIMethod :=
  [fooNone, fooUint, fooString, fooUintUint, fooIntInt, fooIntIntInt]

/-! ## Theorems

### TxReceiptPromise.confirm -/

/-- A pending (null) receipt makes the loop sleep and move to the next
observation, recording zero emissions for that poll. -/
theorem confirmRun_pending (c prev head : Int) (rest : List (Option ReceiptM × Int)) :
    confirmRun c prev ((none, head) :: rest) =
      ((confirmRun c prev rest).1, 0 :: (confirmRun c prev rest).2) := rfl

/-- A mined receipt with the explicit failure status terminates the loop with
the `Transaction process error` throw. -/
theorem confirmRun_failed_receipt (c prev head : Int) (r : ReceiptM)
    (rest : List (Option ReceiptM × Int)) (h : hasTransactionError r = true) :
    confirmRun c prev ((some r, head) :: rest) = (.failed, []) := by
  simp [confirmRun, h]

/-- With target 0, the loop returns the receipt at the very poll that first
observes it (when the head is not behind the receipt's block). -/
theorem confirmRun_zero_target (prev head : Int) (r : ReceiptM)
    (rest : List (Option ReceiptM × Int)) (hok : hasTransactionError r = false)
    (hbn : r.blockNumber ≤ head) :
    confirmRun 0 prev ((some r, head) :: rest) = (.success r, []) := by
  have h1 : ¬(head - r.blockNumber < (0 : Int)) := by omega
  simp [confirmRun, hok, h1]

/-- With target at least 1, as long as every polled head stays at or below the
receipt's block height `H`, the loop never returns a receipt. -/
theorem confirmRun_no_success_below (c H : Int) (hc : 1 ≤ c) :
    ∀ (trace : List (Option ReceiptM × Int)) (prev : Int),
      (∀ p ∈ trace, p.2 ≤ H ∧ ∀ r, p.1 = some r →
        r.blockNumber = H ∧ hasTransactionError r = false) →
      ∀ r, (confirmRun c prev trace).1 ≠ ConfirmResult.success r := by
  intro trace
  induction trace with
  | nil => intro prev _ r; simp [confirmRun]
  | cons p rest ih =>
    intro prev htr r
    obtain ⟨r?, head⟩ := p
    have hp := htr _ (List.mem_cons_self _ _)
    have htr' : ∀ p ∈ rest, p.2 ≤ H ∧ ∀ r, p.1 = some r →
        r.blockNumber = H ∧ hasTransactionError r = false :=
      fun p hmem => htr p (List.mem_cons_of_mem _ hmem)
    cases r? with
    | none =>
      rw [confirmRun_pending]
      exact ih prev htr' r
    | some rc =>
      have hok : hasTransactionError rc = false := (hp.2 rc rfl).2
      have hbn : rc.blockNumber = H := (hp.2 rc rfl).1
      have hhead : head ≤ H := hp.1
      have hcount : head - rc.blockNumber ≤ 0 := by omega
      simp only [confirmRun, hok, Bool.false_eq_true, if_false]
      by_cases h0 : head - rc.blockNumber = 0
      · have : (head - rc.blockNumber == 0 && decide (c > 0)) = true := by
          simp [h0]; omega
        simp only [this, if_true]
        exact ih _ htr' r
      · have hlt : head - rc.blockNumber < c := by omega
        have : (head - rc.blockNumber == 0 && decide (c > 0)) = false := by
          simp [h0]
        simp only [this, if_false, if_pos hlt]
        exact ih _ htr' r

/-- The loop ends in the `Transaction process error` throw only when the trace
actually contains a mined receipt carrying the failure status. -/
theorem confirmRun_failed_only_if (c : Int) :
    ∀ (trace : List (Option ReceiptM × Int)) (prev : Int),
      (confirmRun c prev trace).1 = ConfirmResult.failed →
      ∃ r head, (some r, head) ∈ trace ∧ hasTransactionError r = true := by
  intro trace
  induction trace with
  | nil => intro prev h; simp [confirmRun] at h
  | cons p rest ih =>
    intro prev h
    obtain ⟨r?, head⟩ := p
    cases r? with
    | none =>
      rw [confirmRun_pending] at h
      obtain ⟨r, hd, hmem, herr⟩ := ih prev h
      exact ⟨r, hd, List.mem_cons_of_mem _ hmem, herr⟩
    | some rc =>
      by_cases herr : hasTransactionError rc = true
      · exact ⟨rc, head, List.mem_cons_self _ _, herr⟩
      · have hok : hasTransactionError rc = false := by
          simpa using herr
        simp only [confirmRun, hok, Bool.false_eq_true, if_false] at h
        by_cases h1 : (head - rc.blockNumber == 0 && decide (c > 0)) = true
        · simp only [h1, if_true] at h
          obtain ⟨r, hd, hmem, herr2⟩ := ih prev h
          exact ⟨r, hd, List.mem_cons_of_mem _ hmem, herr2⟩
        · simp only [Bool.not_eq_true] at h1
          simp only [h1, if_false] at h
          by_cases h2 : head - rc.blockNumber < c
          · simp only [if_pos h2] at h
            obtain ⟨r, hd, hmem, herr2⟩ := ih _ h
            exact ⟨r, hd, List.mem_cons_of_mem _ hmem, herr2⟩
          · simp only [if_neg h2] at h
            exact absurd h (by simp)

/-- C1: the claim says each poll that observes the confirmation count increase
by `k` fires the `confirm` callback exactly `k` times.  Evaluating the loop at
the failing input — receipt mined at block 10 with ok status, target 3
confirmations, polled heads 11, 11, 12, 13 — the per-poll emission counts are
`[1, 1, 1]`: the second poll observes the count unchanged at 1 (increase 0)
yet still fires the callback once, because `confirmationCount` defaults to 1
when `confirmationCounter === prevConfirmationCounter`, and line 80 of
src/TxReceiptPromise.ts stores the emission delta (`confirmationCount`)
rather than the counter into `prevConfirmationCounter`.  The claimed per-poll
counts for this trace would be `[1, 0, 1]`. -/
theorem confirm_emit_at_failing_trace :
    confirmRun 3 0
      [(some ⟨some 1, 10⟩, 11), (some ⟨some 1, 10⟩, 11),
       (some ⟨some 1, 10⟩, 12), (some ⟨some 1, 10⟩, 13)] =
      (ConfirmResult.success ⟨some 1, 10⟩, [1, 1, 1]) := by decide

/-- C5: for a receipt mined at height `H` and an observation trace in which
the chain head never exceeds `H`, `confirm` with target at least 1 never
returns a receipt (first conjunct: completion requires the head to advance
past `H`); with target 0, `confirm` returns the receipt at the very poll that
first observes it, regardless of the head height at or above `H` (second
conjunct). -/
theorem confirm_depth_wait :
    (∀ (c H : Int), 1 ≤ c →
      ∀ (trace : List (Option ReceiptM × Int)) (prev : Int),
        (∀ p ∈ trace, p.2 ≤ H ∧ ∀ r, p.1 = some r →
          r.blockNumber = H ∧ hasTransactionError r = false) →
        ∀ r, (confirmRun c prev trace).1 ≠ ConfirmResult.success r)
    ∧ (∀ (prev head : Int) (r : ReceiptM) (rest : List (Option ReceiptM × Int)),
        hasTransactionError r = false → r.blockNumber ≤ head →
        confirmRun 0 prev ((some r, head) :: rest) = (.success r, [])) :=
  ⟨fun c H hc => confirmRun_no_success_below c H hc,
   fun prev head r rest hok hbn => confirmRun_zero_target prev head r rest hok hbn⟩

/-- Witness for C5 at a concrete input: receipt mined at block 10 observed
with the head also at 10 — target 1 does not complete, target 0 returns the
receipt immediately. -/
theorem confirm_depth_wait_witness :
    ((confirmRun 1 0 [(some ⟨some 1, 10⟩, 10)]).1 ≠
      ConfirmResult.success ⟨some 1, 10⟩)
    ∧ confirmRun 0 0 [(some ⟨some 1, 10⟩, 10)] =
        (ConfirmResult.success ⟨some 1, 10⟩, []) := by
  constructor
  · refine confirm_depth_wait.1 1 10 (by norm_num) [(some ⟨some 1, 10⟩, 10)] 0 ?_ ⟨some 1, 10⟩
    intro p hp
    simp only [List.mem_singleton] at hp
    subst hp
    refine ⟨by norm_num, ?_⟩
    intro r hr
    injection hr with h
    subst h
    exact ⟨rfl, rfl⟩
  · exact confirm_depth_wait.2 0 10 ⟨some 1, 10⟩ [] (by decide) (by decide)

/-- C6: during a confirmation poll a null receipt is never an error — the loop
records zero emissions and retries on the next observation (first conjunct); a
mined receipt with the explicit failure status terminates the poll with the
transaction-failed throw (second conjunct); and the poll ends in that throw
only if the trace contains such a failing mined receipt (third conjunct). -/
theorem confirm_error_handling :
    (∀ (c prev head : Int) (rest : List (Option ReceiptM × Int)),
      confirmRun c prev ((none, head) :: rest) =
        ((confirmRun c prev rest).1, 0 :: (confirmRun c prev rest).2))
    ∧ (∀ (c prev head : Int) (r : ReceiptM) (rest : List (Option ReceiptM × Int)),
        hasTransactionError r = true →
        confirmRun c prev ((some r, head) :: rest) = (.failed, []))
    ∧ (∀ (c : Int) (trace : List (Option ReceiptM × Int)) (prev : Int),
        (confirmRun c prev trace).1 = ConfirmResult.failed →
        ∃ r head, (some r, head) ∈ trace ∧ hasTransactionError r = true) :=
  ⟨fun c prev head rest => confirmRun_pending c prev head rest,
   fun c prev head r rest h => confirmRun_failed_receipt c prev head r rest h,
   fun c trace prev h => confirmRun_failed_only_if c trace prev h⟩

/-- Witness for C6 at concrete inputs: a null receipt poll retries; a receipt
with status 0 fails the poll; and a failed run exhibits its failing receipt. -/
theorem confirm_error_handling_witness :
    (confirmRun 3 0 [(none, 5)] = ((confirmRun 3 0 []).1, 0 :: (confirmRun 3 0 []).2))
    ∧ (confirmRun 3 0 [(some ⟨some 0, 5⟩, 6)] = (ConfirmResult.failed, []))
    ∧ (∃ r head, (some r, head) ∈ [((some ⟨some 0, 5⟩ : Option ReceiptM), (6 : Int))] ∧
        hasTransactionError r = true) :=
  ⟨confirm_error_handling.1 3 0 5 [],
   confirm_error_handling.2.1 3 0 6 ⟨some 0, 5⟩ [] (by decide),
   confirm_error_handling.2.2 3 [(some ⟨some 0, 5⟩, 6)] 0 (by decide)⟩

/-! ### Contract.onLog / EventListener.onLog -/

/-- Once the loop observes the cancellation flag at its top, nothing is ever
delivered again. -/
theorem onLogRunAfterCancel_canceled {α : Type} (ftl : Bool) (st : LoopState)
    (trace : List (Int × List α × Bool)) :
    onLogRunAfterCancel ftl true st trace = [] := by
  cases trace with
  | nil => rfl
  | cons p rest => simp [onLogRunAfterCancel]

/-- C2 counterexample: a `Contract.onLog` subscription with default options,
head 5, whose first iteration's fetch returns one entry while `cancel()` is
invoked with that fetch in flight, still delivers that entry to the consumer
after cancellation — the in-flight fetch's result is not discarded, refuting
the claim that no further entries are ever delivered after cancel. -/
theorem onLog_cancel_inflight_delivery :
    onLogRunAfterCancel true false (initLoopState none none)
      [(5, [42], true)] = [42] := by decide

/-- C2 amended: after `cancel()` is invoked, the loop exits at the next
`while (!canceled)` check and no iteration after the one in progress delivers
anything (first conjunct); the deliveries at or after the cancellation signal
are exactly the batch fetched by the iteration in progress at that moment —
empty if that iteration was sleeping, its full fetch result if a fetch was in
flight (second conjunct). -/
theorem onLog_cancel_bounded :
    (∀ (α : Type) (ftl : Bool) (st : LoopState) (trace : List (Int × List α × Bool)),
      onLogRunAfterCancel ftl true st trace = [])
    ∧ (∀ (α : Type) (ftl : Bool) (st : LoopState) (head : Int) (logs : List α)
        (rest : List (Int × List α × Bool)),
        (∀ st', onLogIter ftl st head = .sleep st' →
          onLogRunAfterCancel ftl false st ((head, logs, true) :: rest) = [])
        ∧ (∀ lo hi st', onLogIter ftl st head = .fetched lo hi st' →
          onLogRunAfterCancel ftl false st ((head, logs, true) :: rest) = logs)) := by
  constructor
  · exact fun α ftl st trace => onLogRunAfterCancel_canceled ftl st trace
  · intro α ftl st head logs rest
    constructor
    · intro st' hiter
      simp [onLogRunAfterCancel, hiter, onLogRunAfterCancel_canceled]
    · intro lo hi st' hiter
      simp [onLogRunAfterCancel, hiter, onLogRunAfterCancel_canceled]

/-- Witness for C2 amended at a concrete input: after the flag is observed
nothing is delivered, and a cancellation during the first iteration's
in-flight fetch limits post-cancel deliveries to exactly that batch. -/
theorem onLog_cancel_bounded_witness :
    (onLogRunAfterCancel true true (initLoopState none none)
      [((5 : Int), ([7] : List Nat), true)] = [])
    ∧ onLogRunAfterCancel true false (initLoopState none none)
        [((5 : Int), ([7] : List Nat), true)] = [7] :=
  ⟨onLog_cancel_bounded.1 Nat true (initLoopState none none) [(5, [7], true)],
   (onLog_cancel_bounded.2 Nat true (initLoopState none none) 5 [7] []).2
     5 (.num 5) ⟨.num 6, .num 5, false⟩ (by decide)⟩

/-- C3 counterexample: a subscription with no `fromBlock` and a concrete
`toBlock` of 5, polling at chain head 10: because `fetchToLatest` is computed
from `fromBlock`, the caller's `toBlock = 5` is overwritten with the head and
the first window is `[10, 10]` — extending past the supplied height 5,
refuting the claim that a concrete `toBlock` is never replaced by the chain
head. -/
theorem onLog_toBlock_overwritten :
    onLogIter (fetchToLatest none) (initLoopState none (some (.num 5))) 10 =
      .fetched 10 (.num 10) ⟨.num 11, .num 10, false⟩ := by decide

/-- C3 amended: `toBlock` is replaced by the chain head exactly when
`fetchToLatest` holds, i.e. when `fromBlock` (not `toBlock`) was symbolic.
With `fetchToLatest` false, both iteration outcomes preserve the supplied
`toBlock` and every fetched window's upper bound is that `toBlock` (first two
conjuncts); with `fetchToLatest` true the upper bound is the head (third
conjunct).  Once a concrete window `[f, t]` has been consumed (`f > t`), the
loop never exits: every iteration sleeps and continues (fourth conjunct), and
no further entries are ever delivered (fifth conjunct). -/
theorem onLog_toBlock_bounded :
    (∀ st head st', onLogIter false st head = .sleep st' → st'.toBlock = st.toBlock)
    ∧ (∀ st head lo hi st', onLogIter false st head = .fetched lo hi st' →
        hi = st.toBlock ∧ st'.toBlock = st.toBlock)
    ∧ (∀ st head lo hi st', onLogIter true st head = .fetched lo hi st' → hi = .num head)
    ∧ (∀ (f t : Int) (b : Bool) (head : Int), f > t →
        onLogIter false ⟨.num f, .num t, b⟩ head = .sleep ⟨.num f, .num t, b⟩)
    ∧ (∀ (α : Type) (f t : Int) (b : Bool) (trace : List (Int × List α)), f > t →
        onLogRun false ⟨.num f, .num t, b⟩ trace = []) := by
  refine ⟨?_, ?_, ?_, ?_, ?_⟩
  · intro st head st' hiter
    simp only [onLogIter, if_false, Bool.false_eq_true] at hiter
    split at hiter
    · injection hiter with h
      subst h
      rfl
    · exact absurd hiter (by simp)
  · intro st head lo hi st' hiter
    simp only [onLogIter, if_false, Bool.false_eq_true] at hiter
    split at hiter
    · exact absurd hiter (by simp)
    · injection hiter with h1 h2 h3
      subst h2
      subst h3
      exact ⟨rfl, rfl⟩
  · intro st head lo hi st' hiter
    simp only [onLogIter, if_true] at hiter
    split at hiter
    · exact absurd hiter (by simp)
    · injection hiter with h1 h2 h3
      subst h2
      exact rfl
  · intro f t b head hft
    have hgt : bsGtNum f (.num t) = true := by simp [bsGtNum]; omega
    simp [onLogIter, hgt]
  · intro α f t b trace hft
    induction trace with
    | nil => rfl
    | cons p rest ih =>
      obtain ⟨head, logs⟩ := p
      have hiter : onLogIter false ⟨.num f, .num t, b⟩ head = .sleep ⟨.num f, .num t, b⟩ := by
        have hgt : bsGtNum f (.num t) = true := by simp [bsGtNum]; omega
        simp [onLogIter, hgt]
      simp only [onLogRun, hiter]
      exact ih

/-- Witness for C3 amended at concrete inputs: a concrete-`fromBlock`
subscription keeps its supplied `toBlock` in the fetched window, and a
consumed window `[6, 5]` delivers nothing more. -/
theorem onLog_toBlock_bounded_witness :
    ((BlockSpec.num 5 = (⟨BlockSpec.num 2, BlockSpec.num 5, true⟩ : LoopState).toBlock)
      ∧ (⟨BlockSpec.num 10, BlockSpec.num 5, false⟩ : LoopState).toBlock =
          (⟨BlockSpec.num 2, BlockSpec.num 5, true⟩ : LoopState).toBlock)
    ∧ onLogRun false ⟨BlockSpec.num 6, BlockSpec.num 5, true⟩
        [((9 : Int), ([3] : List Nat))] = [] :=
  ⟨onLog_toBlock_bounded.2.1 ⟨.num 2, .num 5, true⟩ 9 2 (.num 5)
      ⟨.num 10, .num 5, false⟩ (by decide),
   onLog_toBlock_bounded.2.2.2.2 Nat 6 5 true [(9, [3])] (by norm_num)⟩

/-- C4 counterexample: supplying the concrete height 0 as `fromBlock` does not
replay from genesis — `0` is falsy, so `opts.fromBlock || "latest"` collapses
it to the symbolic `"latest"`, and the first iteration at head 7 pins the
window to `[7, 7]` instead of starting at 0, refuting the claim's
"including height 0". -/
theorem onLog_fromBlock_zero :
    initBlockSpec (some (.num 0)) = .latest ∧
    onLogIter (fetchToLatest (some (.num 0))) (initLoopState (some (.num 0)) none) 7 =
      .fetched 7 (.num 7) ⟨.num 8, .num 7, false⟩ := by decide

/-- C4 amended: a concrete nonzero `fromBlock` survives the default (first
conjunct) and every fetch from a concrete cursor starts exactly at that height
(third conjunct); an absent `fromBlock` defaults to the symbolic latest
(second conjunct), which an iteration pins to the current chain head — the
fetch starts at the head, or the sleeping iteration stores the head as the new
concrete cursor (fourth conjunct) — so no historical backlog is replayed.
Height 0, however, is collapsed to the symbolic latest by the falsy default. -/
theorem onLog_fromBlock_semantics :
    (∀ n : Int, n ≠ 0 → initBlockSpec (some (.num n)) = .num n)
    ∧ initBlockSpec none = .latest
    ∧ (∀ ftl st head n lo hi st', st.fromBlock = .num n →
        onLogIter ftl st head = .fetched lo hi st' → lo = n)
    ∧ (∀ ftl st head, st.fromBlock = .latest →
        (∀ lo hi st', onLogIter ftl st head = .fetched lo hi st' → lo = head)
        ∧ (∀ st', onLogIter ftl st head = .sleep st' → st'.fromBlock = .num head)) := by
  refine ⟨?_, rfl, ?_, ?_⟩
  · intro n hn
    simp [initBlockSpec, hn]
  · intro ftl st head n lo hi st' hfrom hiter
    simp only [onLogIter, hfrom] at hiter
    split at hiter
    all_goals split at hiter
    all_goals first
      | (injection hiter with h1 h2 h3; exact h1.symm)
      | exact absurd hiter (by simp)
  · intro ftl st head hfrom
    constructor
    · intro lo hi st' hiter
      simp only [onLogIter, hfrom] at hiter
      split at hiter
      all_goals split at hiter
      all_goals first
        | (injection hiter with h1 h2 h3; exact h1.symm)
        | exact absurd hiter (by simp)
    · intro st' hiter
      simp only [onLogIter, hfrom] at hiter
      split at hiter
      all_goals split at hiter
      all_goals first
        | (injection hiter with h; subst h; rfl)
        | exact absurd hiter (by simp)

/-- Witness for C4 amended at concrete inputs: height 3 survives the default,
a fetch from cursor 3 starts at 3, and a symbolic cursor's first fetch at
head 9 starts at 9. -/
theorem onLog_fromBlock_semantics_witness :
    initBlockSpec (some (.num 3)) = .num 3
    ∧ (3 : Int) = 3
    ∧ (9 : Int) = 9 :=
  ⟨onLog_fromBlock_semantics.1 3 (by norm_num),
   onLog_fromBlock_semantics.2.2.1 false ⟨.num 3, .num 9, true⟩ 9 3 3 (.num 9)
      ⟨.num 10, .num 9, false⟩ rfl (by decide),
   (onLog_fromBlock_semantics.2.2.2 true ⟨.latest, .latest, true⟩ 9 rfl).1
      9 (.num 9) ⟨.num 10, .num 9, false⟩ (by decide)⟩

/-! ### Contract.send / Contract.rawSend, Contract.getLogs, Contract.call -/

/-- C7: for a method whose ABI definition is marked constant, both
`Contract.rawSend` and `Contract.send` throw the constant-method rejection
before anything reaches the RPC client — no calldata is submitted (first
conjunct); a send reaches the RPC client only for a resolved, non-constant
method (second conjunct); and for those it submits exactly the encoded
calldata (third conjunct). -/
theorem send_constant_guard :
    (∀ (m : IABIMethod) (enc : IABIMethod → List Value → String) (args : List Value),
      m.constant = true →
        rawSendModel (some m) enc args = .error .constantMethodSendRejected
        ∧ sendModel (some m) enc args = .error .constantMethodSendRejected
        ∧ submittedCalldata (rawSendModel (some m) enc args) = []
        ∧ submittedCalldata (sendModel (some m) enc args) = [])
    ∧ (∀ r enc args c, sendModel r enc args = Except.ok c →
        ∃ m, r = some m ∧ m.constant = false)
    ∧ (∀ (m : IABIMethod) enc args, m.constant = false →
        sendModel (some m) enc args = .ok (enc m args)
        ∧ rawSendModel (some m) enc args = .ok (enc m args)) := by
  refine ⟨?_, ?_, ?_⟩
  · intro m enc args hc
    refine ⟨?_, ?_, ?_, ?_⟩ <;> simp [rawSendModel, sendModel, submittedCalldata, hc]
  · intro r enc args c h
    match r with
    | none => simp [sendModel] at h
    | some m =>
      refine ⟨m, rfl, ?_⟩
      by_cases hc : m.constant = true
      · simp [sendModel, hc] at h
      · simpa using hc
  · intro m enc args hc
    constructor <;> simp [rawSendModel, sendModel, hc]

/-- Witness for C7 at concrete inputs: sending to the constant `getFoo` is
rejected, sending to the non-constant `setFoo` submits its calldata. -/
theorem send_constant_guard_witness :
    (rawSendModel (some ⟨"getFoo", [], [⟨"", "uint256"⟩], true⟩) (fun _ _ => "cd") [] =
        .error .constantMethodSendRejected)
    ∧ sendModel (some ⟨"setFoo", [⟨"v", "uint256"⟩], [], false⟩) (fun _ _ => "cd")
        [Value.num 1] = .ok "cd" :=
  ⟨(send_constant_guard.1 ⟨"getFoo", [], [⟨"", "uint256"⟩], true⟩ (fun _ _ => "cd") []
      rfl).1,
   (send_constant_guard.2.2 ⟨"setFoo", [⟨"v", "uint256"⟩], [], false⟩ (fun _ _ => "cd")
      [Value.num 1] rfl).1⟩

/-- C8: the decoded batch has exactly one delivered entry per fetched raw log
(nothing is dropped, and no log blocks the others), the i-th delivered entry
keeps the i-th raw log's fields intact, and whenever the external decoder
matches no known event definition for that raw log, the entry is delivered
with a null decoded-event field. -/
theorem getLogs_undecodable_delivered :
    ∀ (d : List ILogItem → List IParsedLog) (result : List ILogItem),
      (getLogsModel d result).length = result.length
      ∧ ∀ i (h1 : i < result.length) (h2 : i < (getLogsModel d result).length),
          ((getLogsModel d result).get ⟨i, h2⟩).raw = result.get ⟨i, h1⟩
          ∧ (d [result.get ⟨i, h1⟩] = [] →
              ((getLogsModel d result).get ⟨i, h2⟩).event = none) := by
  intro d result
  constructor
  · simp [getLogsModel]
  · intro i h1 h2
    constructor
    · simp [getLogsModel]
    · intro hd
      rw [List.get_eq_getElem] at hd
      simp [getLogsModel, ContractLogDecoder.decode, hd]

/-- Witness for C8 at a concrete input: one raw log no decoder matches is
still delivered, raw fields intact and event null. -/
theorem getLogs_undecodable_delivered_witness :
    (getLogsModel (fun _ => []) [ILogItem.mk "a" ["t"] "d"]).length = 1
    ∧ ((getLogsModel (fun _ => []) [ILogItem.mk "a" ["t"] "d"]).get ⟨0, by decide⟩).raw =
        ILogItem.mk "a" ["t"] "d"
    ∧ ((getLogsModel (fun _ => []) [ILogItem.mk "a" ["t"] "d"]).get ⟨0, by decide⟩).event =
        none :=
  ⟨(getLogs_undecodable_delivered (fun _ => []) [ILogItem.mk "a" ["t"] "d"]).1,
   ((getLogs_undecodable_delivered (fun _ => []) [ILogItem.mk "a" ["t"] "d"]).2 0
      (by decide) (by decide)).1,
   ((getLogs_undecodable_delivered (fun _ => []) [ILogItem.mk "a" ["t"] "d"]).2 0
      (by decide) (by decide)).2 rfl⟩

/-- C10: when the RPC raw output is the empty string, `Contract.call` resolves
with the empty array, and it does so without invoking the output decoder — the
result does not depend on the decoder at all (first conjunct); for any
non-empty output it resolves with the decoded output values of the resolved
method (second conjunct). -/
theorem call_empty_output :
    (∀ (dp dp' : List String → String → List Value) (m : IABIMethod),
      callModel dp m "" = []
      ∧ callModel dp m "" = callModel dp' m "")
    ∧ (∀ dp m out, out ≠ "" → callModel dp m out = decodeOutputsModel dp m out) := by
  constructor
  · intro dp dp' m
    exact ⟨rfl, rfl⟩
  · intro dp m out h
    simp [callModel, h]

/-- Witness for C10 at a concrete input: empty output yields the empty array,
the non-empty output `0xbeef` yields the decoded outputs. -/
theorem call_empty_output_witness :
    callModel (fun _ _ => [Value.num 1]) ⟨"getFoo", [], [⟨"", "uint256"⟩], true⟩ "" = []
    ∧ callModel (fun _ _ => [Value.num 1]) ⟨"getFoo", [], [⟨"", "uint256"⟩], true⟩ "0xbeef" =
        decodeOutputsModel (fun _ _ => [Value.num 1]) ⟨"getFoo", [], [⟨"", "uint256"⟩], true⟩
          "0xbeef" :=
  ⟨(call_empty_output.1 (fun _ _ => [Value.num 1]) (fun _ _ => [Value.num 1])
      ⟨"getFoo", [], [⟨"", "uint256"⟩], true⟩).1,
   call_empty_output.2 (fun _ _ => [Value.num 1]) ⟨"getFoo", [], [⟨"", "uint256"⟩], true⟩
      "0xbeef" (by decide)⟩

/-! ### Method resolver -/

/-- A full signature always contains a parenthesis, so a signature-qualified
input always takes the exact-lookup branch. -/
theorem containsParen_signature (m : IABIMethod) :
    containsParen (signature m) = true := by
  have h : '(' ∈ m.name.data ++
      '(' :: (typesJoinData (m.inputs.map (fun p => p.type)) ++ [')']) :=
    List.mem_append_right _ (List.mem_cons_self _ _)
  simp only [containsParen, signature, List.contains]
  exact List.elem_eq_true_of_mem h

/-- Exact signature lookup: when the definitions sharing `m`'s full signature
are exactly `m` (the spec's invariant — overloads never share a signature),
the search finds `m`. -/
theorem find?_signature_unique (m : IABIMethod) :
    ∀ (abi : List IABIMethod), m ∈ abi →
      (∀ m' ∈ abi, signature m' = signature m → m' = m) →
      abi.find? (fun m' => signature m' == signature m) = some m := by
  intro abi
  induction abi with
  | nil => intro h; exact absurd h (List.not_mem_nil m)
  | cons a as ih =>
    intro hmem huniq
    by_cases ha : signature a = signature m
    · have : a = m := huniq a (List.mem_cons_self _ _) ha
      subst this
      simp [List.find?, ha]
    · have hbeq : (signature a == signature m) = false := by
        simpa using ha
      have hmem' : m ∈ as := by
        cases List.mem_cons.mp hmem with
        | inl h => exact absurd (congrArg signature h.symm) ha
        | inr h => exact h
      have huniq' : ∀ m' ∈ as, signature m' = signature m → m' = m :=
        fun m' hm' => huniq m' (List.mem_cons_of_mem _ hm')
      simp only [List.find?, hbeq]
      exact ih hmem' huniq'

/-- C9: resolving a fully-qualified signature string over an ABI in which no
other definition shares that signature always selects exactly that definition,
never another overload (first conjunct); and over the six `foo` overloads, the
bare name with three arguments — an argument count matched only by
`foo(int256,int256,int256)` — selects that sole candidate (second conjunct). -/
theorem findMethod_resolution :
    (∀ (abi : List IABIMethod) (m : IABIMethod) (args : List Value), m ∈ abi →
      (∀ m' ∈ abi, signature m' = signature m → m' = m) →
      findMethod abi (signature m) args = some m)
    ∧ findMethod methodOverloadingAbi "foo" [Value.num 1, Value.num 2, Value.num 3] =
        some fooIntIntInt := by
  constructor
  · intro abi m args hmem huniq
    simp only [findMethod, containsParen_signature m, if_true]
    exact find?_signature_unique m abi hmem huniq
  · decide

/-- Witness for C9 at a concrete input: resolving the full signature
`foo(uint256)` over the six overloads selects exactly `foo(uint256)`. -/
theorem findMethod_resolution_witness :
    findMethod methodOverloadingAbi (signature fooUint) [Value.num 1] = some fooUint :=
  findMethod_resolution.1 methodOverloadingAbi fooUint [Value.num 1] (by decide) (by decide)

end QtumJS
